import Mathlib

/-!
Verification of the key/path mapping and sequential transfer loop of a
small S3 client-side-encryption sync tool (`main.go`).

The Go standard-library path helpers used by the program
(`path/filepath.Clean/Join/Base/Dir/Rel/ToSlash`, `strings.TrimPrefix`,
`strings.HasSuffix`) are embedded as executable Lean functions over
`String`, parameterized by the host separator convention (`unixOS`,
`windowsOS`).  Volume-name handling (Windows drive letters / UNC paths)
is outside the scope of the paths this tool manipulates and is not
modelled; string comparison is case-sensitive on both conventions.

The two I/O routines `GetObjectsWithCseKms` and `PutObjectsWithCseKms`
are embedded as state-passing interpreters: the outcome of every
external call (S3 listing, get, put, `os.MkdirAll`, `os.Create`,
`os.Open`, stream copy, and the errors delivered by `filepath.Walk`)
is supplied by an environment, and the interpreter returns the sequence
of performed actions, the final remote-store contents (upload side),
and the error result.  Go `defer` is function-scoped, which the
download interpreter models by accumulating the registered closes and
appending them (in LIFO order) to the trace when the function returns;
the upload side registers its `defer` inside the walk callback, so its
close runs when the callback returns, i.e. per visited file.
-/

/-- Host path-separator convention of `path/filepath`. -/
structure OsConv where
  isSep : Char → Bool
  sep : Char

/-- The Unix convention: `/` is the only separator. -/
def unixOS : OsConv := ⟨fun c => c == '/', '/'⟩

/-- The Windows convention (volume-less paths): both `/` and `\` separate,
and the canonical separator written by `filepath` is `\`. -/
def windowsOS : OsConv := ⟨fun c => c == '/' || c == '\\', '\\'⟩

/-- Split a character list at separators; separators are dropped and the
(possibly empty) runs between them are kept. -/
def splitSeps (p : Char → Bool) : List Char → List (List Char)
  | [] => [[]]
  | c :: cs =>
    match splitSeps p cs with
    | [] => [[]]
    | h :: t => if p c then [] :: h :: t else (c :: h) :: t

/-- The component-processing loop of Go `filepath.Clean`: empty and `.`
components are skipped and `..` is resolved against the stack of output
components (the stack is kept in reverse order). -/
def cleanStack (rooted : Bool) : List String → List String → List String
  | stack, [] => stack
  | stack, c :: cs =>
    if c = "" ∨ c = "." then cleanStack rooted stack cs
    else if c = ".." then
      match stack with
      | [] => cleanStack rooted (if rooted then [] else [".."]) cs
      | top :: rest =>
        if top = ".." then cleanStack rooted (".." :: top :: rest) cs
        else cleanStack rooted rest cs
    else cleanStack rooted (c :: stack) cs

/-- Go `filepath.Clean` on volume-less paths. -/
def filepathClean (os : OsConv) (path : String) : String :=
  if path = "" then "."
  else
    let rooted := os.isSep (path.data.headD ' ')
    let comps := (splitSeps os.isSep path.data).map String.mk
    let parts := (cleanStack rooted [] comps).reverse
    let body := String.intercalate (String.singleton os.sep) parts
    if rooted then String.singleton os.sep ++ body
    else if body = "" then "." else body

/-- Go `filepath.Join` restricted to two arguments, as `main.go` uses it:
the non-empty elements are joined with the separator and cleaned. -/
def filepathJoin (os : OsConv) (a b : String) : String :=
  if a ≠ "" then filepathClean os (a ++ String.singleton os.sep ++ b)
  else if b ≠ "" then filepathClean os b
  else ""

/-- Go `filepath.Base` on volume-less paths. -/
def filepathBase (os : OsConv) (path : String) : String :=
  if path = "" then "."
  else
    let l := (path.data.reverse.dropWhile os.isSep).reverse
    if l.isEmpty then String.singleton os.sep
    else String.mk (l.reverse.takeWhile (fun c => !os.isSep c)).reverse

/-- Go `filepath.Dir` on volume-less paths: everything up to and including
the last separator, cleaned. -/
def filepathDir (os : OsConv) (path : String) : String :=
  filepathClean os (String.mk (path.data.reverse.dropWhile (fun c => !os.isSep c)).reverse)

/-- Go `filepath.ToSlash`: replace the canonical separator by `/`. -/
def filepathToSlash (os : OsConv) (s : String) : String :=
  String.mk (s.data.map (fun c => if c == os.sep then '/' else c))

/-- Go `strings.HasSuffix`. -/
def stringsHasSuffix (s suffix : String) : Bool :=
  suffix.data.isSuffixOf s.data

/-- Go `strings.TrimPrefix`: remove the leading prefix if present. -/
def stringsTrimPrefix (s pre : String) : String :=
  if pre.data.isPrefixOf s.data then String.mk (s.data.drop pre.data.length) else s

/-- Drop the longest common prefix of two component lists, as the
element-scanning loop of Go `filepath.Rel` does. -/
def stripCommon : List String → List String → List String × List String
  | x :: xs, y :: ys => if x = y then stripCommon xs ys else (x :: xs, y :: ys)
  | xs, ys => (xs, ys)

/-- The path components `filepath.Rel` scans: a cleaned path split at the
separator, where the bare root contributes a single empty component. -/
def relParts (os : OsConv) (s : String) : List String :=
  if s = "" then []
  else if s = String.singleton os.sep then [""]
  else (splitSeps os.isSep s.data).map String.mk

/-- Whether the first character is a separator (false for the empty string). -/
def headIsSep (os : OsConv) (s : String) : Bool :=
  match s.data with
  | [] => false
  | c :: _ => os.isSep c

/-- Go `filepath.Rel` on volume-less paths; `none` models Go's error
return. -/
def filepathRel (os : OsConv) (basepath targpath : String) : Option String :=
  let b := filepathClean os basepath
  let t := filepathClean os targpath
  if b = t then some "."
  else
    let b := if b = "." then "" else b
    if headIsSep os b != headIsSep os t then none
    else
      match stripCommon (relParts os b) (relParts os t) with
      | (".." :: _, _) => none
      | ([], trest) => some (String.intercalate (String.singleton os.sep) trest)
      | (brest, trest) =>
          some (String.intercalate (String.singleton os.sep)
            (List.replicate brest.length ".." ++ trest))

/-! ## Download side: `GetObjectsWithCseKms` -/

/-- The `objectKeys` list built at the top of `GetObjectsWithCseKms`:
a key ending in `/` triggers one `ListObjectsV2` call and collects every
returned member key; any other key is used directly. -/
def downloadObjectKeys (objectPre : String) (listing : List String) : List String :=
  if stringsHasSuffix objectPre "/" then listing else [objectPre]

/-- The per-iteration `localFilePath` computation of the download loop:
for a prefix (or a multi-member key list) the member key minus the
prefix is joined below the base path, otherwise only the base name of
the single key is. -/
def localFilePathFor (os : OsConv) (path objectPre : String)
    (objectKeys : List String) (objectKey : String) : String :=
  if stringsHasSuffix objectPre "/" ∨ objectKeys.length > 1 then
    filepathJoin os path (stringsTrimPrefix objectKey objectPre)
  else
    filepathJoin os path (filepathBase os objectKey)

/-- Observable actions of the download routine, tagged with the position
of the transfer item that performs them. -/
inductive GetAction where
  | listCall (objectPre : String)
  | mkdir (item : Nat) (dir : String)
  | getObj (item : Nat) (key : String)
  | createFile (item : Nat) (path : String)
  | writeFile (item : Nat) (path : String)
  | closeBody (item : Nat)
  | closeFile (item : Nat)
  deriving DecidableEq

/-- The transfer item an action belongs to (the listing call precedes all
items and is assigned position 0). -/
def actionItem : GetAction → Nat
  | .listCall _ => 0
  | .mkdir i _ => i
  | .getObj i _ => i
  | .createFile i _ => i
  | .writeFile i _ => i
  | .closeBody i => i
  | .closeFile i => i

/-- Outcomes of the external calls made inside the download loop, indexed
by item position; `none` is success. -/
structure GetEnv where
  mkdirRes : Nat → Option String
  getRes : Nat → Option String
  createRes : Nat → Option String
  writeRes : Nat → Option String

/-- The all-success download environment. -/
def envOK : GetEnv := ⟨fun _ => none, fun _ => none, fun _ => none, fun _ => none⟩

/-- One iteration of the download loop body: the actions it performs, the
closes it registers with `defer` (listed in the order they will run),
and the error it returns, if any. -/
def itemStep (os : OsConv) (env : GetEnv) (path objectPre : String)
    (objectKeys : List String) (i : Nat) (k : String) :
    List GetAction × List GetAction × Option String :=
  let dest := localFilePathFor os path objectPre objectKeys k
  match env.mkdirRes i with
  | some e => ([.mkdir i (filepathDir os dest)], [], some ("error create directory: " ++ e))
  | none =>
    match env.getRes i with
    | some e => ([.mkdir i (filepathDir os dest), .getObj i k], [],
        some ("error while decrypting: " ++ e))
    | none =>
      match env.createRes i with
      | some e => ([.mkdir i (filepathDir os dest), .getObj i k, .createFile i dest],
          [.closeBody i], some ("error create file: " ++ e))
      | none =>
        match env.writeRes i with
        | some e => ([.mkdir i (filepathDir os dest), .getObj i k, .createFile i dest,
            .writeFile i dest], [.closeFile i, .closeBody i], some ("error write file: " ++ e))
        | none => ([.mkdir i (filepathDir os dest), .getObj i k, .createFile i dest,
            .writeFile i dest], [.closeFile i, .closeBody i], none)

/-- The error the download loop body returns for item `i`, if any
(first failing step wins, with the wrapping of `main.go`). -/
def itemErr (env : GetEnv) (i : Nat) : Option String :=
  match env.mkdirRes i with
  | some e => some ("error create directory: " ++ e)
  | none =>
    match env.getRes i with
    | some e => some ("error while decrypting: " ++ e)
    | none =>
      match env.createRes i with
      | some e => some ("error create file: " ++ e)
      | none =>
        match env.writeRes i with
        | some e => some ("error write file: " ++ e)
        | none => none

/-- The download loop over `objectKeys`: loop-trace, accumulated deferred
closes (in the order they will run at function exit), and result.  The
loop returns at the first item error; the `defer`s registered so far
still run at function exit. -/
def getLoop (os : OsConv) (env : GetEnv) (path objectPre : String)
    (objectKeys : List String) : Nat → List String → List GetAction × List GetAction × Option String
  | _, [] => ([], [], none)
  | i, k :: rest =>
    let step := itemStep os env path objectPre objectKeys i k
    match step.2.2 with
    | some e => (step.1, step.2.1, some e)
    | none =>
      let r := getLoop os env path objectPre objectKeys (i + 1) rest
      (step.1 ++ r.1, r.2.1 ++ step.2.1, r.2.2)

/-- `GetObjectsWithCseKms`: the full action trace (loop actions followed
by the function-exit deferred closes) and the returned error. -/
def GetObjectsWithCseKms (os : OsConv) (env : GetEnv) (path objectPre : String)
    (listRes : Except String (List String)) : List GetAction × Option String :=
  if stringsHasSuffix objectPre "/" then
    match listRes with
    | .error e => ([.listCall objectPre], some ("error ListObjectsV2: " ++ e))
    | .ok listing =>
      let keys := listing
      let r := getLoop os env path objectPre keys 0 keys
      (.listCall objectPre :: (r.1 ++ r.2.1), r.2.2)
  else
    let keys := [objectPre]
    let r := getLoop os env path objectPre keys 0 keys
    (r.1 ++ r.2.1, r.2.2)

/-! ## Upload side: `PutObjectsWithCseKms` -/

/-- One entry delivered by `filepath.Walk`: the visited path, whether it
is a directory, and the walk-supplied error, if any. -/
structure WalkEntry where
  path : String
  isDir : Bool
  err : Option String
  deriving DecidableEq

/-- Outcomes of `os.Open` and the encrypted `PutObject` call, indexed by
entry position, and the content read from the `i`-th opened file. -/
structure PutEnv where
  openRes : Nat → Option String
  putRes : Nat → Option String
  content : Nat → String

/-- An all-success upload environment with the given file contents. -/
def putEnvOK (content : Nat → String) : PutEnv :=
  ⟨fun _ => none, fun _ => none, content⟩

/-- Observable actions of the upload routine. -/
inductive PutAction where
  | openFile (item : Nat) (path : String)
  | putObj (item : Nat) (key : String)
  | closeFile (item : Nat)
  deriving DecidableEq

/-- The entry position an upload action belongs to. -/
def putActionItem : PutAction → Nat
  | .openFile i _ => i
  | .putObj i _ => i
  | .closeFile i => i

/-- The destination object key the walk callback computes for a regular
file at `p`: below a `/`-terminated prefix the path of `p` relative to
the base (its base name when the base is the file itself), joined and
slash-normalized; otherwise the prefix itself, slash-normalized.
`none` models a `filepath.Rel` error. -/
def putObjectKeyFor (os : OsConv) (objectPre basePath p : String) : Option String :=
  if stringsHasSuffix objectPre "/" then
    match filepathRel os basePath p with
    | none => none
    | some relPath =>
      let relPath := if relPath = "." then filepathBase os p else relPath
      some (filepathToSlash os (filepathJoin os objectPre relPath))
  else
    some (filepathToSlash os objectPre)

/-- One invocation of the walk callback: actions performed, resulting
remote-store contents, and the error returned, if any.  The `defer`red
close runs when the callback returns, i.e. before the next entry. -/
def putEntryStep (os : OsConv) (env : PutEnv) (objectPre basePath : String)
    (i : Nat) (e : WalkEntry) (store : String → Option String) :
    List PutAction × (String → Option String) × Option String :=
  match e.err with
  | some werr => ([], store, some werr)
  | none =>
    if e.isDir then ([], store, none)
    else
      match env.openRes i with
      | some oe => ([.openFile i e.path], store, some oe)
      | none =>
        match putObjectKeyFor os objectPre basePath e.path with
        | none => ([.openFile i e.path, .closeFile i], store, some "Rel: cannot make relative")
        | some key =>
          match env.putRes i with
          | some pe => ([.openFile i e.path, .putObj i key, .closeFile i], store,
              some ("failed to upload: " ++ pe))
          | none => ([.openFile i e.path, .putObj i key, .closeFile i],
              (fun q => if q = key then some (env.content i) else store q), none)

/-- The error the walk callback returns for entry `e` at position `i`,
if any. -/
def putEntryErr (os : OsConv) (env : PutEnv) (objectPre basePath : String)
    (i : Nat) (e : WalkEntry) : Option String :=
  match e.err with
  | some werr => some werr
  | none =>
    if e.isDir then none
    else
      match env.openRes i with
      | some oe => some oe
      | none =>
        match putObjectKeyFor os objectPre basePath e.path with
        | none => some "Rel: cannot make relative"
        | some _ =>
          match env.putRes i with
          | some pe => some ("failed to upload: " ++ pe)
          | none => none

/-- `filepath.Walk`: the entries are visited in order and the walk halts
at the first error returned by the callback. -/
def putLoop (os : OsConv) (env : PutEnv) (objectPre basePath : String) :
    Nat → List WalkEntry → (String → Option String) →
    List PutAction × (String → Option String) × Option String
  | _, [], store => ([], store, none)
  | i, e :: rest, store =>
    let step := putEntryStep os env objectPre basePath i e store
    match step.2.2 with
    | some msg => (step.1, step.2.1, some msg)
    | none =>
      let r := putLoop os env objectPre basePath (i + 1) rest step.2.1
      (step.1 ++ r.1, r.2.1, r.2.2)

/-- `PutObjectsWithCseKms`: walk the enumerated tree starting from the
given remote-store contents. -/
def PutObjectsWithCseKms (os : OsConv) (env : PutEnv) (basePath objectPre : String)
    (walk : List WalkEntry) (store : String → Option String) :
    List PutAction × (String → Option String) × Option String :=
  putLoop os env objectPre basePath 0 walk store

/-- The destination keys put by a run, in order. -/
def putKeysOf (tr : List PutAction) : List String :=
  tr.filterMap fun a =>
    match a with
    | .putObj _ k => some k
    | _ => none

/-! ## Driver: mode validation in `main` -/

/-- Phases of `main`, in order: the flag validation either fails or the
program goes on to load credentials and run the selected transfer. -/
inductive MainAction where
  | configError
  | loadConfig
  | runDownload
  | runUpload
  deriving DecidableEq

/-- The mode validation and dispatch of `main`: both modes or neither is
a fatal configuration error raised before anything else runs. -/
def mainRun (download upload : Bool) : List MainAction :=
  if (download && upload) || (!download && !upload) then [.configError]
  else
    [.loadConfig] ++ (if download then [.runDownload] else [])
      ++ (if upload then [.runUpload] else [])

/-! ## Derived trace shapes -/

/-- The actions a download-loop iteration performs when every external
call succeeds. -/
def fullItemTrace (os : OsConv) (path objectPre : String) (objectKeys : List String)
    (i : Nat) (k : String) : List GetAction :=
  [.mkdir i (filepathDir os (localFilePathFor os path objectPre objectKeys k)),
   .getObj i k,
   .createFile i (localFilePathFor os path objectPre objectKeys k),
   .writeFile i (localFilePathFor os path objectPre objectKeys k)]

/-- The actions a successful walk-callback invocation performs: nothing
for a directory; open, put and close (in that order) for a file. -/
def putEntryBlock (os : OsConv) (objectPre basePath : String) (i : Nat) (e : WalkEntry) :
    List PutAction :=
  if e.isDir then []
  else [.openFile i e.path,
        .putObj i ((putObjectKeyFor os objectPre basePath e.path).getD ""),
        .closeFile i]

/-- The trace of an upload run in which every entry succeeds: one
self-contained block per entry, in walk order. -/
def putBlocks (os : OsConv) (objectPre basePath : String) :
    Nat → List WalkEntry → List PutAction
  | _, [] => []
  | i, e :: rest => putEntryBlock os objectPre basePath i e
      ++ putBlocks os objectPre basePath (i + 1) rest

/-- A download environment whose second item fails at the encrypted
`GetObject` call. -/
def envFailSnd : GetEnv :=
  ⟨fun _ => none, fun i => if i = 1 then some "boom" else none,
   fun _ => none, fun _ => none⟩

/-- An upload environment whose second entry fails at the encrypted
`PutObject` call. -/
def putEnvFailSnd : PutEnv :=
  ⟨fun _ => none, fun i => if i = 1 then some "boom" else none, fun _ => "c"⟩

/-- A download environment whose first item fails while streaming the
body into the created file: both of its handles are already open when
the error aborts the run. -/
def envFailWrite : GetEnv :=
  ⟨fun _ => none, fun _ => none, fun _ => none,
   fun i => if i = 0 then some "disk full" else none⟩

/-! Behavioural checks of the embedded helpers against Go's documented
semantics, including the corner cases of `Clean`, `Rel` and `Join`. -/
example : filepathClean unixOS "a/b/../c//d/" = "a/c/d" := by decide
example : filepathJoin unixOS "/out" "2024/jan.csv" = "/out/2024/jan.csv" := by decide
example : filepathJoin unixOS "/out" "" = "/out" := by decide
example : filepathBase unixOS "a/b/single.bin" = "single.bin" := by decide
example : filepathDir unixOS "/out/2024/jan.csv" = "/out/2024" := by decide
example : filepathRel unixOS "/data" "/data/sub/y.txt" = some "sub/y.txt" := by decide
example : filepathRel unixOS "x.txt" "x.txt" = some "." := by decide
example : filepathRel unixOS "/" "/a" = some "a" := by decide
example : filepathRel unixOS "/a" "/" = some ".." := by decide
example : filepathRel unixOS "a" "." = some "../." := by decide
example : filepathRel unixOS "a" "/b" = none := by decide
example : stringsTrimPrefix "reports/2024/jan.csv" "reports/" = "2024/jan.csv" := by decide
example : filepathJoin windowsOS "archive/" "sub\\y.txt" = "archive\\sub\\y.txt" := by decide
example : filepathToSlash windowsOS "archive\\sub\\y.txt" = "archive/sub/y.txt" := by decide
example : filepathRel windowsOS "data" "data\\sub\\y.txt" = some "sub\\y.txt" := by decide
example : putObjectKeyFor unixOS "a//b/" "x.txt" "x.txt" = some "a/b/x.txt" := by decide
example : localFilePathFor unixOS "/out" "reports/" ["reports/2024/jan.csv"]
    "reports/2024/jan.csv" = "/out/2024/jan.csv" := by decide

/-! ## Helper lemmas -/

theorem listIsPrefixOfSelf (l : List Char) : l.isPrefixOf l = true := by
  induction l with
  | nil => rfl
  | cons c cs ih => simp [List.isPrefixOf, ih]

theorem stringsTrimPrefixSelf (s : String) : stringsTrimPrefix s s = "" := by
  rw [stringsTrimPrefix, if_pos (by simp [listIsPrefixOfSelf]), List.drop_length]

theorem filepathRelSelf (os : OsConv) (s : String) : filepathRel os s s = some "." := by
  simp [filepathRel]

theorem filepathToSlashUnix (s : String) : filepathToSlash unixOS s = s := by
  have h : ∀ c : Char, (if c == unixOS.sep then '/' else c) = c := by
    intro c
    by_cases hc : c == unixOS.sep
    · have hc2 : c = '/' := eq_of_beq hc
      simp [hc, hc2]
    · simp [hc]
  simp only [filepathToSlash, h, List.map_id']

theorem sepNotMemToSlash (os : OsConv) (s : String) (h : os.sep ≠ '/') :
    os.sep ∉ (filepathToSlash os s).data := by
  intro hmem
  have hmem2 : os.sep ∈ s.data.map (fun c => if c == os.sep then '/' else c) := hmem
  rcases List.mem_map.mp hmem2 with ⟨c, _, hc⟩
  by_cases hcs : c == os.sep
  · rw [if_pos hcs] at hc
    exact h hc.symm
  · rw [if_neg hcs] at hc
    have hne : c ≠ os.sep := by simpa using hcs
    exact hne hc

theorem itemStepErrEq (os : OsConv) (env : GetEnv) (path objectPre : String)
    (objectKeys : List String) (i : Nat) (k : String) :
    (itemStep os env path objectPre objectKeys i k).2.2 = itemErr env i := by
  cases hm : env.mkdirRes i <;> cases hg : env.getRes i <;>
    cases hc : env.createRes i <;> cases hw : env.writeRes i <;>
      simp [itemStep, itemErr, hm, hg, hc, hw]

theorem itemStepOfOk (os : OsConv) (env : GetEnv) (path objectPre : String)
    (objectKeys : List String) (i : Nat) (k : String) (h : itemErr env i = none) :
    itemStep os env path objectPre objectKeys i k
      = (fullItemTrace os path objectPre objectKeys i k, [.closeFile i, .closeBody i], none) := by
  cases hm : env.mkdirRes i <;> cases hg : env.getRes i <;>
    cases hc : env.createRes i <;> cases hw : env.writeRes i <;>
      simp_all [itemStep, itemErr, fullItemTrace]

theorem itemStepFstItem (os : OsConv) (env : GetEnv) (path objectPre : String)
    (objectKeys : List String) (i : Nat) (k : String) :
    ∀ a ∈ (itemStep os env path objectPre objectKeys i k).1, actionItem a = i := by
  cases hm : env.mkdirRes i <;> cases hg : env.getRes i <;>
    cases hc : env.createRes i <;> cases hw : env.writeRes i <;>
      simp [itemStep, actionItem, hm, hg, hc, hw]

theorem itemStepSndItem (os : OsConv) (env : GetEnv) (path objectPre : String)
    (objectKeys : List String) (i : Nat) (k : String) :
    ∀ a ∈ (itemStep os env path objectPre objectKeys i k).2.1, actionItem a = i := by
  cases hm : env.mkdirRes i <;> cases hg : env.getRes i <;>
    cases hc : env.createRes i <;> cases hw : env.writeRes i <;>
      simp [itemStep, actionItem, hm, hg, hc, hw]

theorem fullItemTraceItem (os : OsConv) (path objectPre : String)
    (objectKeys : List String) (i : Nat) (k : String) :
    ∀ a ∈ fullItemTrace os path objectPre objectKeys i k, actionItem a = i := by
  simp [fullItemTrace, actionItem]

theorem putEntryStepErrEq (os : OsConv) (env : PutEnv) (objectPre basePath : String)
    (i : Nat) (e : WalkEntry) (store : String → Option String) :
    (putEntryStep os env objectPre basePath i e store).2.2
      = putEntryErr os env objectPre basePath i e := by
  cases he : e.err <;> cases hd : e.isDir <;> cases ho : env.openRes i <;>
    cases hk : putObjectKeyFor os objectPre basePath e.path <;> cases hp : env.putRes i <;>
      simp [putEntryStep, putEntryErr, he, hd, ho, hk, hp]

theorem putEntryStepOfOk (os : OsConv) (env : PutEnv) (objectPre basePath : String)
    (i : Nat) (e : WalkEntry) (store : String → Option String)
    (h : putEntryErr os env objectPre basePath i e = none) :
    (putEntryStep os env objectPre basePath i e store).1
        = putEntryBlock os objectPre basePath i e ∧
      (putEntryStep os env objectPre basePath i e store).2.2 = none := by
  cases he : e.err <;> cases hd : e.isDir <;> cases ho : env.openRes i <;>
    cases hk : putObjectKeyFor os objectPre basePath e.path <;> cases hp : env.putRes i <;>
      simp_all [putEntryStep, putEntryErr, putEntryBlock]

theorem putEntryStepItem (os : OsConv) (env : PutEnv) (objectPre basePath : String)
    (i : Nat) (e : WalkEntry) (store : String → Option String) :
    ∀ a ∈ (putEntryStep os env objectPre basePath i e store).1, putActionItem a = i := by
  cases he : e.err <;> cases hd : e.isDir <;> cases ho : env.openRes i <;>
    cases hk : putObjectKeyFor os objectPre basePath e.path <;> cases hp : env.putRes i <;>
      simp [putEntryStep, putActionItem, he, hd, ho, hk, hp]

/-! ## Claim C1 -/

/-- Claim C1: for a download request whose object key ends with `/`, the
member keys are exactly the keys returned by the single listing call,
and each member key `k` is mapped to the local destination
`filepath.Join(localBasePath, strings.TrimPrefix(k, objectPrefix))`,
i.e. `k` with the prefix stripped from its start joined below the base
path, preserving the relative sub-structure under the prefix. -/
theorem c1_prefix_download_mapping (os : OsConv) (base objectPre : String)
    (listing : List String) (k : String)
    (hpre : stringsHasSuffix objectPre "/" = true)
    (_hk : k ∈ downloadObjectKeys objectPre listing) :
    downloadObjectKeys objectPre listing = listing ∧
      localFilePathFor os base objectPre (downloadObjectKeys objectPre listing) k
        = filepathJoin os base (stringsTrimPrefix k objectPre) := by
  simp [downloadObjectKeys, localFilePathFor, hpre]

/-- Witness for C1, on the spec's scenario: member key
`reports/2024/jan.csv` under prefix `reports/` with base `/out` lands at
`/out/2024/jan.csv`. -/
theorem c1_prefix_download_mapping_witness :
    localFilePathFor unixOS "/out" "reports/"
        (downloadObjectKeys "reports/" ["reports/2024/jan.csv", "reports/2024/feb.csv"])
        "reports/2024/jan.csv" = "/out/2024/jan.csv" :=
  (c1_prefix_download_mapping unixOS "/out" "reports/"
      ["reports/2024/jan.csv", "reports/2024/feb.csv"] "reports/2024/jan.csv"
      (by decide) (by decide)).2.trans (by decide)

/-! ## Claim C3 -/

/-- Claim C3: for a download request whose object key does not end with
`/`, the member-key list is the single key itself, and the destination
is `filepath.Join(localBasePath, filepath.Base(key))` — only the final
path segment of the key is used, however many segments it has. -/
theorem c3_single_key_download_mapping (os : OsConv) (base objectKey : String)
    (listing : List String) (hns : stringsHasSuffix objectKey "/" = false) :
    downloadObjectKeys objectKey listing = [objectKey] ∧
      localFilePathFor os base objectKey (downloadObjectKeys objectKey listing) objectKey
        = filepathJoin os base (filepathBase os objectKey) := by
  simp [downloadObjectKeys, localFilePathFor, hns]

/-- Witness for C3, on the spec's scenario: object key `a/b/single.bin`
with base `/out` lands at `/out/single.bin`. -/
theorem c3_single_key_download_mapping_witness :
    localFilePathFor unixOS "/out" "a/b/single.bin"
        (downloadObjectKeys "a/b/single.bin" []) "a/b/single.bin" = "/out/single.bin" :=
  (c3_single_key_download_mapping unixOS "/out" "a/b/single.bin" []
      (by decide)).2.trans (by decide)

/-! ## Claim C4 -/

/-- Counterexample to claim C4 as stated: the code computes the key with
`filepath.Join`, which cleans the joined path, so for the (legal) S3
prefix `a//b/` and single file `x.txt` the produced key is `a/b/x.txt`,
not the verbatim concatenation `a//b/` ++ `x.txt` = `a//b/x.txt`. -/
theorem c4_counterexample :
    putObjectKeyFor unixOS "a//b/" "x.txt" "x.txt" = some "a/b/x.txt" ∧
      "a//b/" ++ filepathBase unixOS "x.txt" = "a//b/x.txt" ∧
      putObjectKeyFor unixOS "a//b/" "x.txt" "x.txt"
        ≠ some ("a//b/" ++ filepathBase unixOS "x.txt") := by
  decide

/-- Claim C4 as amended: for an upload whose object key ends with `/`
and whose base path identifies a single regular file (the walk visits
exactly the base path itself, so `filepath.Rel` yields the degenerate
self path `.` and the base name is substituted), the destination key is
`filepath.ToSlash(filepath.Join(objectPrefix, filepath.Base(file)))` —
the slash-normalized path-join of the prefix and the file's base name,
which coincides with plain concatenation exactly when the prefix is
already a cleaned path. -/
theorem c4_single_file_upload_key (os : OsConv) (env : PutEnv) (objectPre p : String)
    (store : String → Option String)
    (hpre : stringsHasSuffix objectPre "/" = true)
    (hopen : env.openRes 0 = none) (hput : env.putRes 0 = none) :
    putKeysOf (PutObjectsWithCseKms os env p objectPre [⟨p, false, none⟩] store).1
      = [filepathToSlash os (filepathJoin os objectPre (filepathBase os p))] := by
  simp [PutObjectsWithCseKms, putLoop, putEntryStep, hopen, hput,
    putObjectKeyFor, hpre, filepathRelSelf, putKeysOf]

/-- Witness for the amended C4: uploading the single file `/data/x.txt`
under prefix `archive/` produces the key `archive/x.txt`. -/
theorem c4_single_file_upload_key_witness :
    putKeysOf (PutObjectsWithCseKms unixOS (putEnvOK fun _ => "payload") "/data/x.txt"
        "archive/" [⟨"/data/x.txt", false, none⟩] fun _ => none).1 = ["archive/x.txt"] :=
  (c4_single_file_upload_key unixOS (putEnvOK fun _ => "payload") "archive/" "/data/x.txt"
      (fun _ => none) (by decide) (by decide) (by decide)).trans (by decide)

/-! ## Claim C7 -/

/-- Claim C7: a prefix download whose listing returns zero member keys
yields zero transfer items: the run performs only the listing call — no
get, no directory creation, no file creation, no write — and returns no
error. -/
theorem c7_empty_listing (os : OsConv) (env : GetEnv) (base objectPre : String)
    (hpre : stringsHasSuffix objectPre "/" = true) :
    downloadObjectKeys objectPre [] = [] ∧
      GetObjectsWithCseKms os env base objectPre (.ok [])
        = ([.listCall objectPre], none) := by
  simp [downloadObjectKeys, hpre, GetObjectsWithCseKms, getLoop]

/-- Witness for C7 at the prefix `reports/`. -/
theorem c7_empty_listing_witness :
    GetObjectsWithCseKms unixOS envOK "/out" "reports/" (.ok [])
      = ([.listCall "reports/"], none) :=
  (c7_empty_listing unixOS envOK "/out" "reports/" (by decide)).2

/-! ## Claim C8 -/

/-- Claim C8: when both of the download and upload mode flags are set,
or neither is, `main` stops with a configuration error and performs no
I/O at all (no credential loading, listing, walk, get or put); when
exactly one mode is selected no configuration error is raised. -/
theorem c8_mode_validation (download upload : Bool) :
    (download = upload → mainRun download upload = [MainAction.configError]) ∧
      (download ≠ upload → MainAction.configError ∉ mainRun download upload) := by
  cases download <;> cases upload <;> decide

/-- Witness for C8: both flags set gives exactly the configuration
error and nothing else. -/
theorem c8_mode_validation_witness :
    mainRun true true = [MainAction.configError] :=
  (c8_mode_validation true true).1 rfl

/-! ## Claim C10 -/

/-- Claim C10: when the listing of a prefix returns a member key equal
to the prefix itself (a zero-byte folder placeholder), the stripped
remainder is empty, so the destination is
`filepath.Join(localBasePath, "")` — the base path itself — and the
executor does not skip the entry: the run's trace creates a regular
file at that destination. -/
theorem c10_placeholder_member (os : OsConv) (base objectPre : String)
    (hpre : stringsHasSuffix objectPre "/" = true) :
    (∀ keys : List String,
        localFilePathFor os base objectPre keys objectPre = filepathJoin os base "") ∧
      (GetObjectsWithCseKms os envOK base objectPre (.ok [objectPre])).1
        = [.listCall objectPre,
           .mkdir 0 (filepathDir os (filepathJoin os base "")),
           .getObj 0 objectPre,
           .createFile 0 (filepathJoin os base ""),
           .writeFile 0 (filepathJoin os base ""),
           .closeFile 0, .closeBody 0] := by
  constructor
  · intro keys
    simp [localFilePathFor, hpre, stringsTrimPrefixSelf]
  · simp [GetObjectsWithCseKms, hpre, getLoop, itemStep, envOK,
      localFilePathFor, stringsTrimPrefixSelf]

/-- Witness for C10: prefix `reports/` listed under base `/out` maps the
placeholder member `reports/` to `/out` itself. -/
theorem c10_placeholder_member_witness :
    localFilePathFor unixOS "/out" "reports/" ["reports/"] "reports/" = "/out" :=
  ((c10_placeholder_member unixOS "/out" "reports/" (by decide)).1 ["reports/"]).trans
    (by decide)

/-! ## Loop-unfolding lemmas -/

theorem putKeysOfAppend (a b : List PutAction) :
    putKeysOf (a ++ b) = putKeysOf a ++ putKeysOf b :=
  List.filterMap_append a b _

theorem putLoopConsOk (os : OsConv) (env : PutEnv) (objectPre basePath : String)
    (i : Nat) (e : WalkEntry) (rest : List WalkEntry) (store : String → Option String)
    (h : (putEntryStep os env objectPre basePath i e store).2.2 = none) :
    putLoop os env objectPre basePath i (e :: rest) store
      = ((putEntryStep os env objectPre basePath i e store).1
            ++ (putLoop os env objectPre basePath (i + 1) rest
                (putEntryStep os env objectPre basePath i e store).2.1).1,
         (putLoop os env objectPre basePath (i + 1) rest
            (putEntryStep os env objectPre basePath i e store).2.1).2.1,
         (putLoop os env objectPre basePath (i + 1) rest
            (putEntryStep os env objectPre basePath i e store).2.1).2.2) := by
  simp [putLoop, h]

theorem putLoopConsErr (os : OsConv) (env : PutEnv) (objectPre basePath : String)
    (i : Nat) (e : WalkEntry) (rest : List WalkEntry) (store : String → Option String)
    (msg : String)
    (h : (putEntryStep os env objectPre basePath i e store).2.2 = some msg) :
    putLoop os env objectPre basePath i (e :: rest) store
      = ((putEntryStep os env objectPre basePath i e store).1,
         (putEntryStep os env objectPre basePath i e store).2.1, some msg) := by
  simp [putLoop, h]

theorem getLoopConsOk (os : OsConv) (env : GetEnv) (path objectPre : String)
    (objectKeys : List String) (i : Nat) (k : String) (rest : List String)
    (h : itemErr env i = none) :
    getLoop os env path objectPre objectKeys i (k :: rest)
      = (fullItemTrace os path objectPre objectKeys i k
            ++ (getLoop os env path objectPre objectKeys (i + 1) rest).1,
         (getLoop os env path objectPre objectKeys (i + 1) rest).2.1
            ++ [.closeFile i, .closeBody i],
         (getLoop os env path objectPre objectKeys (i + 1) rest).2.2) := by
  simp [getLoop, itemStepOfOk os env path objectPre objectKeys i k h]

theorem getLoopConsErr (os : OsConv) (env : GetEnv) (path objectPre : String)
    (objectKeys : List String) (i : Nat) (k : String) (rest : List String)
    (msg : String) (h : itemErr env i = some msg) :
    getLoop os env path objectPre objectKeys i (k :: rest)
      = ((itemStep os env path objectPre objectKeys i k).1,
         (itemStep os env path objectPre objectKeys i k).2.1, some msg) := by
  simp [getLoop, itemStepErrEq, h]

/-! ## Upload mapping under a prefix -/

theorem putLoopKeysAux (os : OsConv) (env : PutEnv) (objectPre basePath : String)
    (hpre : stringsHasSuffix objectPre "/" = true)
    (henv : ∀ i, env.openRes i = none ∧ env.putRes i = none) :
    ∀ (entries : List WalkEntry) (s : Nat) (store : String → Option String),
      (∀ e ∈ entries, e.err = none) →
      (∀ e ∈ entries, e.isDir = false →
        (filepathRel os basePath e.path).isSome
          ∧ filepathRel os basePath e.path ≠ some ".") →
      putKeysOf (putLoop os env objectPre basePath s entries store).1
        = entries.filterMap (fun e =>
            if e.isDir then none
            else some (filepathToSlash os (filepathJoin os objectPre
              ((filepathRel os basePath e.path).getD "")))) := by
  intro entries
  induction entries with
  | nil =>
    intro s store _ _
    simp [putLoop, putKeysOf]
  | cons e rest ih =>
    intro s store hw hrel
    have he : e.err = none := hw e (by simp)
    by_cases hd : e.isDir
    · have hstep : putEntryStep os env objectPre basePath s e store = ([], store, none) := by
        simp [putEntryStep, he, hd]
      rw [putLoopConsOk os env objectPre basePath s e rest store (by rw [hstep])]
      rw [putKeysOfAppend, hstep]
      rw [ih (s + 1) store (fun e' h' => hw e' (by simp [h']))
        (fun e' h' => hrel e' (by simp [h']))]
      simp [putKeysOf, hd]
    · obtain ⟨hsome, hne⟩ := hrel e (by simp) (by simpa using hd)
      obtain ⟨r, hr⟩ := Option.isSome_iff_exists.mp hsome
      have hrne : r ≠ "." := fun hcon => hne (hcon ▸ hr)
      have hkey : putObjectKeyFor os objectPre basePath e.path
          = some (filepathToSlash os (filepathJoin os objectPre r)) := by
        simp [putObjectKeyFor, hpre, hr, hrne]
      have hstep : putEntryStep os env objectPre basePath s e store
          = ([.openFile s e.path,
              .putObj s (filepathToSlash os (filepathJoin os objectPre r)), .closeFile s],
             (fun q => if q = filepathToSlash os (filepathJoin os objectPre r)
               then some (env.content s) else store q), none) := by
        simp [putEntryStep, he, hd, (henv s).1, (henv s).2, hkey]
      rw [putLoopConsOk os env objectPre basePath s e rest store (by rw [hstep])]
      rw [putKeysOfAppend, hstep]
      rw [ih (s + 1) _ (fun e' h' => hw e' (by simp [h']))
        (fun e' h' => hrel e' (by simp [h']))]
      simp [putKeysOf, hd, hr]

/-! ## Claim C2 -/

/-- Claim C2: for an upload whose object key ends with `/`, every walked
regular (non-directory) file `p` is assigned the destination key
`filepath.ToSlash(filepath.Join(objectPrefix, filepath.Rel(localBasePath, p)))`
— the relative path joined below the prefix — and directory entries are
never assigned a key; moreover on a convention whose canonical
separator is not `/` (Windows) the produced keys contain no host
separator, i.e. separators are normalized to forward slashes.  The
hypotheses restrict to runs where the walk and the external calls
succeed and the base is a directory strictly containing the files
(`Rel` succeeds and is not the degenerate `.`). -/
theorem c2_prefix_upload_mapping (os : OsConv) (env : PutEnv) (objectPre basePath : String)
    (entries : List WalkEntry) (store : String → Option String)
    (hpre : stringsHasSuffix objectPre "/" = true)
    (henv : ∀ i, env.openRes i = none ∧ env.putRes i = none)
    (hw : ∀ e ∈ entries, e.err = none)
    (hrel : ∀ e ∈ entries, e.isDir = false →
      (filepathRel os basePath e.path).isSome
        ∧ filepathRel os basePath e.path ≠ some ".") :
    putKeysOf (PutObjectsWithCseKms os env basePath objectPre entries store).1
        = entries.filterMap (fun e =>
            if e.isDir then none
            else some (filepathToSlash os (filepathJoin os objectPre
              ((filepathRel os basePath e.path).getD ""))))
      ∧ (∀ key ∈ putKeysOf (PutObjectsWithCseKms os env basePath objectPre entries store).1,
          os.sep ≠ '/' → os.sep ∉ key.data) := by
  simp only [PutObjectsWithCseKms]
  have h1 := putLoopKeysAux os env objectPre basePath hpre henv entries 0 store hw hrel
  refine ⟨h1, ?_⟩
  intro key hkey hsep
  rw [h1] at hkey
  rcases List.mem_filterMap.mp hkey with ⟨e, _, he⟩
  by_cases hd : e.isDir
  · simp [hd] at he
  · simp [hd] at he
    subst he
    exact sepNotMemToSlash os _ hsep

/-- Witness for C2, on the spec's scenario: walking `/data` containing
`x.txt` and `sub/y.txt` under prefix `archive/` produces the keys
`archive/x.txt` and `archive/sub/y.txt`. -/
theorem c2_prefix_upload_mapping_witness :
    putKeysOf (PutObjectsWithCseKms unixOS (putEnvOK fun _ => "c") "/data" "archive/"
        [⟨"/data", true, none⟩, ⟨"/data/x.txt", false, none⟩,
         ⟨"/data/sub", true, none⟩, ⟨"/data/sub/y.txt", false, none⟩] fun _ => none).1
      = ["archive/x.txt", "archive/sub/y.txt"] :=
  (c2_prefix_upload_mapping unixOS (putEnvOK fun _ => "c") "archive/" "/data"
      [⟨"/data", true, none⟩, ⟨"/data/x.txt", false, none⟩,
       ⟨"/data/sub", true, none⟩, ⟨"/data/sub/y.txt", false, none⟩] (fun _ => none)
      (by decide) (fun _ => ⟨rfl, rfl⟩) (by decide) (by decide)).1.trans (by decide)

/-! ## Upload in single-key mode -/

theorem putLoopSingleKeyAux (os : OsConv) (env : PutEnv) (objectPre basePath : String)
    (hns : stringsHasSuffix objectPre "/" = false)
    (henv : ∀ i, env.openRes i = none ∧ env.putRes i = none) :
    ∀ (entries : List WalkEntry) (s : Nat) (store : String → Option String),
      (∀ e ∈ entries, e.isDir = false ∧ e.err = none) →
      putKeysOf (putLoop os env objectPre basePath s entries store).1
          = List.replicate entries.length (filepathToSlash os objectPre)
        ∧ (putLoop os env objectPre basePath s entries store).2.2 = none
        ∧ (entries ≠ [] →
            (putLoop os env objectPre basePath s entries store).2.1
                (filepathToSlash os objectPre)
              = some (env.content (s + entries.length - 1))) := by
  intro entries
  induction entries with
  | nil =>
    intro s store _
    simp [putLoop, putKeysOf]
  | cons e rest ih =>
    intro s store hfe
    obtain ⟨hd, he⟩ := hfe e (by simp)
    have hkey : putObjectKeyFor os objectPre basePath e.path
        = some (filepathToSlash os objectPre) := by
      simp [putObjectKeyFor, hns]
    have hstep : putEntryStep os env objectPre basePath s e store
        = ([.openFile s e.path, .putObj s (filepathToSlash os objectPre), .closeFile s],
           (fun q => if q = filepathToSlash os objectPre
             then some (env.content s) else store q), none) := by
      simp [putEntryStep, he, hd, (henv s).1, (henv s).2, hkey]
    rw [putLoopConsOk os env objectPre basePath s e rest store (by rw [hstep])]
    have ihh := ih (s + 1) (putEntryStep os env objectPre basePath s e store).2.1
      (fun e' h' => hfe e' (by simp [h']))
    refine ⟨?_, ihh.2.1, ?_⟩
    · rw [putKeysOfAppend, ihh.1, hstep]
      simp [putKeysOf, List.replicate_succ]
    · intro _
      cases rest with
      | nil =>
        simp [putLoop, hstep]
      | cons f fs =>
        have h3 := ihh.2.2 (by simp)
        have harith : s + 1 + (f :: fs).length - 1 = s + (e :: f :: fs).length - 1 := by
          simp
          omega
        rw [harith] at h3
        exact h3

/-! ## Claim C5 -/

/-- Claim C5: for an upload whose object key does not end with `/`,
every walked regular file is assigned the same destination key — the
object key itself (`ToSlash` is the identity on the host convention
`unixOS`, so the key is verbatim) — the mapping layer raises no error
however many files are walked, and the files silently resolve to
last-writer-wins at that single key: the final remote store holds the
content of the last walked file. -/
theorem c5_single_key_upload (os : OsConv) (env : PutEnv) (objectPre basePath : String)
    (entries : List WalkEntry) (store : String → Option String)
    (hns : stringsHasSuffix objectPre "/" = false)
    (henv : ∀ i, env.openRes i = none ∧ env.putRes i = none)
    (hfiles : ∀ e ∈ entries, e.isDir = false ∧ e.err = none) :
    putKeysOf (PutObjectsWithCseKms os env basePath objectPre entries store).1
        = List.replicate entries.length (filepathToSlash os objectPre)
      ∧ filepathToSlash unixOS objectPre = objectPre
      ∧ (PutObjectsWithCseKms os env basePath objectPre entries store).2.2 = none
      ∧ (entries ≠ [] →
          (PutObjectsWithCseKms os env basePath objectPre entries store).2.1
              (filepathToSlash os objectPre)
            = some (env.content (entries.length - 1))) := by
  simp only [PutObjectsWithCseKms]
  have h := putLoopSingleKeyAux os env objectPre basePath hns henv entries 0 store hfiles
  exact ⟨h.1, filepathToSlashUnix objectPre, h.2.1,
    fun hne => by simpa using h.2.2 hne⟩

/-- Witness for C5: two files walked under the single key `single.bin`
both map to `single.bin`, no error is raised, and the store ends with
the second file's content. -/
theorem c5_single_key_upload_witness :
    putKeysOf (PutObjectsWithCseKms unixOS
        ⟨fun _ => none, fun _ => none, fun i => if i = 0 then "first" else "second"⟩
        "/d" "single.bin" [⟨"/d/a", false, none⟩, ⟨"/d/b", false, none⟩] fun _ => none).1
      = ["single.bin", "single.bin"]
    ∧ (PutObjectsWithCseKms unixOS
        ⟨fun _ => none, fun _ => none, fun i => if i = 0 then "first" else "second"⟩
        "/d" "single.bin" [⟨"/d/a", false, none⟩, ⟨"/d/b", false, none⟩]
        fun _ => none).2.1 "single.bin" = some "second" := by
  have h := c5_single_key_upload unixOS
    ⟨fun _ => none, fun _ => none, fun i => if i = 0 then "first" else "second"⟩
    "single.bin" "/d" [⟨"/d/a", false, none⟩, ⟨"/d/b", false, none⟩] (fun _ => none)
    (by decide) (fun _ => ⟨rfl, rfl⟩) (by decide)
  have h3 := h.2.2.2 (by decide)
  rw [h.2.1] at h3
  exact ⟨h.1.trans (by decide), h3.trans (by decide)⟩

/-! ## Fail-fast behaviour of the transfer loops -/

theorem getLoopFailFastAux (os : OsConv) (env : GetEnv) (path objectPre : String)
    (allKeys : List String) (x : String) (post : List String) (msg : String) :
    ∀ (pre : List String) (s : Nat),
      (∀ j, j < pre.length → itemErr env (s + j) = none) →
      itemErr env (s + pre.length) = some msg →
      (getLoop os env path objectPre allKeys s (pre ++ x :: post)).2.2 = some msg
        ∧ (∀ j k, pre.get? j = some k →
            GetAction.writeFile (s + j) (localFilePathFor os path objectPre allKeys k)
              ∈ (getLoop os env path objectPre allKeys s (pre ++ x :: post)).1)
        ∧ (∀ a ∈ (getLoop os env path objectPre allKeys s (pre ++ x :: post)).1,
            actionItem a ≤ s + pre.length)
        ∧ (∀ a ∈ (getLoop os env path objectPre allKeys s (pre ++ x :: post)).2.1,
            actionItem a ≤ s + pre.length) := by
  intro pre
  induction pre with
  | nil =>
    intro s hok hfail
    simp only [List.length_nil, Nat.add_zero] at hfail ⊢
    rw [List.nil_append, getLoopConsErr os env path objectPre allKeys s x post msg hfail]
    refine ⟨rfl, ?_, ?_, ?_⟩
    · intro j k hj
      simp at hj
    · intro a ha
      have := itemStepFstItem os env path objectPre allKeys s x a ha
      omega
    · intro a ha
      have := itemStepSndItem os env path objectPre allKeys s x a ha
      omega
  | cons k0 pre ih =>
    intro s hok hfail
    have h0 : itemErr env s = none := by
      have := hok 0 (by simp)
      simpa using this
    rw [List.cons_append,
      getLoopConsOk os env path objectPre allKeys s k0 (pre ++ x :: post) h0]
    have hok2 : ∀ j, j < pre.length → itemErr env (s + 1 + j) = none := by
      intro j hj
      have := hok (j + 1) (by simp; omega)
      rw [show s + 1 + j = s + (j + 1) by omega]
      exact this
    have hfail2 : itemErr env (s + 1 + pre.length) = some msg := by
      rw [show s + 1 + pre.length = s + (pre.length + 1) by omega]
      simpa using hfail
    have ihh := ih (s + 1) hok2 hfail2
    refine ⟨by simpa [List.length_cons] using ihh.1, ?_, ?_, ?_⟩
    · intro j k hj
      cases j with
      | zero =>
        have hj2 : some k0 = some k := hj
        injection hj2 with hk0
        subst hk0
        exact List.mem_append_left _ (by simp [fullItemTrace])
      | succ j =>
        have hj2 : pre.get? j = some k := hj
        have := ihh.2.1 j k hj2
        rw [show s + (j + 1) = s + 1 + j by omega]
        exact List.mem_append_right _ this
    · intro a ha
      rcases List.mem_append.mp ha with h1 | h2
      · have := fullItemTraceItem os path objectPre allKeys s k0 a h1
        simp only [List.length_cons]
        omega
      · have := ihh.2.2.1 a h2
        simp only [List.length_cons]
        omega
    · intro a ha
      rcases List.mem_append.mp ha with h1 | h2
      · have := ihh.2.2.2 a h1
        simp only [List.length_cons]
        omega
      · simp at h2
        rcases h2 with rfl | rfl <;> simp [actionItem]

theorem putLoopFailFastAux (os : OsConv) (env : PutEnv) (objectPre basePath : String)
    (x : WalkEntry) (post : List WalkEntry) (msg : String) :
    ∀ (pre : List WalkEntry) (s : Nat) (store : String → Option String),
      (∀ j e, pre.get? j = some e →
        e.isDir = false ∧ putEntryErr os env objectPre basePath (s + j) e = none) →
      putEntryErr os env objectPre basePath (s + pre.length) x = some msg →
      (putLoop os env objectPre basePath s (pre ++ x :: post) store).2.2 = some msg
        ∧ (∀ j e, pre.get? j = some e →
            PutAction.putObj (s + j)
                ((putObjectKeyFor os objectPre basePath e.path).getD "")
              ∈ (putLoop os env objectPre basePath s (pre ++ x :: post) store).1)
        ∧ (∀ a ∈ (putLoop os env objectPre basePath s (pre ++ x :: post) store).1,
            putActionItem a ≤ s + pre.length) := by
  intro pre
  induction pre with
  | nil =>
    intro s store hok hfail
    simp only [List.length_nil, Nat.add_zero] at hfail ⊢
    rw [List.nil_append, putLoopConsErr os env objectPre basePath s x post store msg
      (by rw [putEntryStepErrEq]; exact hfail)]
    refine ⟨rfl, ?_, ?_⟩
    · intro j e hj
      simp at hj
    · intro a ha
      have := putEntryStepItem os env objectPre basePath s x store a ha
      omega
  | cons e0 pre ih =>
    intro s store hok hfail
    obtain ⟨hd0, he0⟩ := hok 0 e0 rfl
    have he0s : putEntryErr os env objectPre basePath s e0 = none := by simpa using he0
    rw [List.cons_append, putLoopConsOk os env objectPre basePath s e0 (pre ++ x :: post)
      store (by rw [putEntryStepErrEq]; exact he0s)]
    have hok2 : ∀ j e, pre.get? j = some e →
        e.isDir = false ∧ putEntryErr os env objectPre basePath (s + 1 + j) e = none := by
      intro j e hj
      have := hok (j + 1) e hj
      rw [show s + 1 + j = s + (j + 1) by omega]
      exact this
    have hfail2 : putEntryErr os env objectPre basePath (s + 1 + pre.length) x = some msg := by
      rw [show s + 1 + pre.length = s + (pre.length + 1) by omega]
      simpa using hfail
    have ihh := ih (s + 1) (putEntryStep os env objectPre basePath s e0 store).2.1 hok2 hfail2
    refine ⟨by simpa [List.length_cons] using ihh.1, ?_, ?_⟩
    · intro j e hj
      cases j with
      | zero =>
        have hj2 : some e0 = some e := hj
        injection hj2 with he
        subst he
        refine List.mem_append_left _ ?_
        rw [(putEntryStepOfOk os env objectPre basePath s e0 store he0s).1]
        simp [putEntryBlock, hd0]
      | succ j =>
        have hj2 : pre.get? j = some e := hj
        have := ihh.2.1 j e hj2
        rw [show s + (j + 1) = s + 1 + j by omega]
        exact List.mem_append_right _ this
    · intro a ha
      rcases List.mem_append.mp ha with h1 | h2
      · have := putEntryStepItem os env objectPre basePath s e0 store a h1
        simp only [List.length_cons]
        omega
      · have := ihh.2.2 a h2
        simp only [List.length_cons]
        omega

/-! ## Claim C6 -/

/-- Claim C6: in both transfer directions, when the item at position
`i` (after `pre` successful items) fails with a transfer-layer error,
the loop halts returning exactly that error; every earlier item was
fully transferred (its write, resp. its put, is in the trace) and
nothing removes it afterwards; no action of any later item is ever
performed (every traced action, deferred closes included, belongs to an
item at position at most `i`); and no item is retried or skipped. -/
theorem c6_failfast_halts :
    (∀ (os : OsConv) (env : GetEnv) (path objectPre x msg : String)
        (pre post : List String),
      (∀ j, j < pre.length → itemErr env j = none) →
      itemErr env pre.length = some msg →
      (getLoop os env path objectPre (pre ++ x :: post) 0 (pre ++ x :: post)).2.2 = some msg
        ∧ (∀ j k, pre.get? j = some k →
            GetAction.writeFile j
                (localFilePathFor os path objectPre (pre ++ x :: post) k)
              ∈ (getLoop os env path objectPre (pre ++ x :: post) 0 (pre ++ x :: post)).1)
        ∧ (∀ a ∈ (getLoop os env path objectPre (pre ++ x :: post) 0 (pre ++ x :: post)).1,
            actionItem a ≤ pre.length)
        ∧ (∀ a ∈ (getLoop os env path objectPre (pre ++ x :: post) 0
              (pre ++ x :: post)).2.1, actionItem a ≤ pre.length))
    ∧ (∀ (os : OsConv) (env : PutEnv) (objectPre basePath msg : String)
        (x : WalkEntry) (pre post : List WalkEntry) (store : String → Option String),
      (∀ j e, pre.get? j = some e →
        e.isDir = false ∧ putEntryErr os env objectPre basePath j e = none) →
      putEntryErr os env objectPre basePath pre.length x = some msg →
      (putLoop os env objectPre basePath 0 (pre ++ x :: post) store).2.2 = some msg
        ∧ (∀ j e, pre.get? j = some e →
            PutAction.putObj j ((putObjectKeyFor os objectPre basePath e.path).getD "")
              ∈ (putLoop os env objectPre basePath 0 (pre ++ x :: post) store).1)
        ∧ (∀ a ∈ (putLoop os env objectPre basePath 0 (pre ++ x :: post) store).1,
            putActionItem a ≤ pre.length)) := by
  constructor
  · intro os env path objectPre x msg pre post hok hfail
    obtain ⟨h1, h2, h3, h4⟩ := getLoopFailFastAux os env path objectPre
      (pre ++ x :: post) x post msg pre 0
      (fun j hj => by rw [Nat.zero_add]; exact hok j hj)
      (by rw [Nat.zero_add]; exact hfail)
    refine ⟨h1, ?_, ?_, ?_⟩
    · intro j k hj
      have := h2 j k hj
      rwa [Nat.zero_add] at this
    · intro a ha
      have := h3 a ha
      omega
    · intro a ha
      have := h4 a ha
      omega
  · intro os env objectPre basePath msg x pre post store hok hfail
    obtain ⟨h1, h2, h3⟩ := putLoopFailFastAux os env objectPre basePath x post msg pre 0 store
      (fun j e hj => by rw [Nat.zero_add]; exact hok j e hj)
      (by rw [Nat.zero_add]; exact hfail)
    refine ⟨h1, ?_, ?_⟩
    · intro j e hj
      have := h2 j e hj
      rwa [Nat.zero_add] at this
    · intro a ha
      have := h3 a ha
      omega

/-- Witness for C6: with the second of three download items failing at
the encrypted get, the loop returns the wrapped error, item one's write
is in the trace and item three is never attempted; with the second of
three upload entries failing at the encrypted put, the walk returns the
wrapped error. -/
theorem c6_failfast_halts_witness :
    ((getLoop unixOS envFailSnd "/out" "p/" ["p/a", "p/b", "p/c"] 0
          ["p/a", "p/b", "p/c"]).2.2 = some "error while decrypting: boom"
      ∧ GetAction.writeFile 0 "/out/a"
          ∈ (getLoop unixOS envFailSnd "/out" "p/" ["p/a", "p/b", "p/c"] 0
              ["p/a", "p/b", "p/c"]).1
      ∧ GetAction.getObj 2 "p/c"
          ∉ (getLoop unixOS envFailSnd "/out" "p/" ["p/a", "p/b", "p/c"] 0
              ["p/a", "p/b", "p/c"]).1)
    ∧ (putLoop unixOS putEnvFailSnd "arch/" "/d" 0
        [⟨"/d/a", false, none⟩, ⟨"/d/b", false, none⟩, ⟨"/d/c", false, none⟩]
        fun _ => none).2.2 = some "failed to upload: boom" := by
  have hd := c6_failfast_halts.1 unixOS envFailSnd "/out" "p/" "p/b"
    "error while decrypting: boom" ["p/a"] ["p/c"]
    (fun j hj => by
      have hj0 : j = 0 := by simpa using hj
      subst hj0
      decide)
    (by decide)
  have hu := c6_failfast_halts.2 unixOS putEnvFailSnd "arch/" "/d"
    "failed to upload: boom" ⟨"/d/b", false, none⟩
    [⟨"/d/a", false, none⟩] [⟨"/d/c", false, none⟩] (fun _ => none)
    (fun j e hj => by
      match j with
      | 0 =>
        have hj2 : some (⟨"/d/a", false, none⟩ : WalkEntry) = some e := hj
        injection hj2 with he
        subst he
        exact ⟨rfl, by decide⟩
      | n + 1 =>
        have hj2 : ([] : List WalkEntry).get? n = some e := hj
        simp at hj2)
    (by decide)
  refine ⟨⟨hd.1, ?_, ?_⟩, hu.1⟩
  · have := hd.2.1 0 "p/a" rfl
    rwa [(by decide :
      localFilePathFor unixOS "/out" "p/" (["p/a"] ++ "p/b" :: ["p/c"]) "p/a"
        = "/out/a")] at this
  · intro hmem
    have := hd.2.2.1 (GetAction.getObj 2 "p/c") hmem
    simp [actionItem] at this

/-! ## Resource handling of the loops -/

theorem putLoopBlocksAux (os : OsConv) (env : PutEnv) (objectPre basePath : String) :
    ∀ (entries : List WalkEntry) (s : Nat) (store : String → Option String),
      (∀ j e, entries.get? j = some e →
        putEntryErr os env objectPre basePath (s + j) e = none) →
      (putLoop os env objectPre basePath s entries store).1
          = putBlocks os objectPre basePath s entries
        ∧ (putLoop os env objectPre basePath s entries store).2.2 = none := by
  intro entries
  induction entries with
  | nil =>
    intro s store _
    simp [putLoop, putBlocks]
  | cons e rest ih =>
    intro s store hok
    have he : putEntryErr os env objectPre basePath s e = none := by
      have := hok 0 e rfl
      simpa using this
    rw [putLoopConsOk os env objectPre basePath s e rest store
      (by rw [putEntryStepErrEq]; exact he)]
    have ihh := ih (s + 1) (putEntryStep os env objectPre basePath s e store).2.1
      (fun j e' hj => by
        have hj2 : (e :: rest).get? (j + 1) = some e' := hj
        have := hok (j + 1) e' hj2
        rw [show s + 1 + j = s + (j + 1) by omega]
        exact this)
    constructor
    · rw [(putEntryStepOfOk os env objectPre basePath s e store he).1, ihh.1]
      simp [putBlocks]
    · simpa using ihh.2

theorem getLoopReleaseAux (os : OsConv) (env : GetEnv) (path objectPre : String)
    (allKeys : List String) :
    ∀ (ks : List String) (s : Nat),
      (∀ j k2, GetAction.getObj j k2 ∈ (getLoop os env path objectPre allKeys s ks).1 →
        env.getRes j = none →
        GetAction.closeBody j ∈ (getLoop os env path objectPre allKeys s ks).2.1)
        ∧ (∀ j p2,
            GetAction.createFile j p2 ∈ (getLoop os env path objectPre allKeys s ks).1 →
            env.createRes j = none →
            GetAction.closeFile j ∈ (getLoop os env path objectPre allKeys s ks).2.1) := by
  intro ks
  induction ks with
  | nil =>
    intro s
    constructor <;> intro j y hmem _ <;> simp [getLoop] at hmem
  | cons k rest ih =>
    intro s
    cases hm : env.mkdirRes s with
    | some e =>
      constructor <;> intro j y hmem _ <;> simp [getLoop, itemStep, hm] at hmem
    | none =>
      cases hg : env.getRes s with
      | some e =>
        constructor
        · intro j y hmem hok
          simp [getLoop, itemStep, hm, hg] at hmem
          obtain ⟨rfl, -⟩ := hmem
          rw [hg] at hok
          simp at hok
        · intro j y hmem _
          simp [getLoop, itemStep, hm, hg] at hmem
      | none =>
        cases hc : env.createRes s with
        | some e =>
          constructor
          · intro j y hmem _
            simp [getLoop, itemStep, hm, hg, hc] at hmem ⊢
            exact hmem.1
          · intro j y hmem hok
            simp [getLoop, itemStep, hm, hg, hc] at hmem
            obtain ⟨rfl, -⟩ := hmem
            rw [hc] at hok
            simp at hok
        | none =>
          cases hw : env.writeRes s with
          | some e =>
            constructor
            · intro j y hmem _
              simp [getLoop, itemStep, hm, hg, hc, hw] at hmem ⊢
              exact hmem.1
            · intro j y hmem _
              simp [getLoop, itemStep, hm, hg, hc, hw] at hmem ⊢
              exact hmem.1
          | none =>
            have hok0 : itemErr env s = none := by
              simp [itemErr, hm, hg, hc, hw]
            rw [getLoopConsOk os env path objectPre allKeys s k rest hok0]
            constructor
            · intro j y hmem hok
              rcases List.mem_append.mp hmem with h1 | h2
              · simp [fullItemTrace] at h1
                obtain ⟨rfl, -⟩ := h1
                exact List.mem_append_right _ (by simp)
              · exact List.mem_append_left _ ((ih (s + 1)).1 j y h2 hok)
            · intro j y hmem hok
              rcases List.mem_append.mp hmem with h1 | h2
              · simp [fullItemTrace] at h1
                obtain ⟨rfl, -⟩ := h1
                exact List.mem_append_right _ (by simp)
              · exact List.mem_append_left _ ((ih (s + 1)).2 j y h2 hok)

theorem putLoopReleaseAux (os : OsConv) (env : PutEnv) (objectPre basePath : String) :
    ∀ (entries : List WalkEntry) (s : Nat) (store : String → Option String),
      ∀ j p2,
        PutAction.openFile j p2 ∈ (putLoop os env objectPre basePath s entries store).1 →
        env.openRes j = none →
        PutAction.closeFile j ∈ (putLoop os env objectPre basePath s entries store).1 := by
  intro entries
  induction entries with
  | nil =>
    intro s store j p2 hmem _
    simp [putLoop] at hmem
  | cons e rest ih =>
    intro s store j p2 hmem hok
    cases he : e.err with
    | some werr =>
      simp [putLoop, putEntryStep, he] at hmem
    | none =>
      by_cases hd : e.isDir
      · have hstep : putEntryStep os env objectPre basePath s e store = ([], store, none) := by
          simp [putEntryStep, he, hd]
        rw [putLoopConsOk os env objectPre basePath s e rest store (by rw [hstep]),
          hstep] at hmem ⊢
        simp only [List.nil_append] at hmem ⊢
        exact ih (s + 1) store j p2 hmem hok
      · cases ho : env.openRes s with
        | some oe =>
          simp [putLoop, putEntryStep, he, hd, ho] at hmem
          obtain ⟨rfl, -⟩ := hmem
          rw [ho] at hok
          simp at hok
        | none =>
          cases hk : putObjectKeyFor os objectPre basePath e.path with
          | none =>
            simp [putLoop, putEntryStep, he, hd, ho, hk] at hmem ⊢
            exact hmem.1
          | some key =>
            cases hp : env.putRes s with
            | some pe =>
              simp [putLoop, putEntryStep, he, hd, ho, hk, hp] at hmem ⊢
              exact hmem.1
            | none =>
              have hstep2 : (putEntryStep os env objectPre basePath s e store).2.2 = none := by
                simp [putEntryStep, he, hd, ho, hk, hp]
              rw [putLoopConsOk os env objectPre basePath s e rest store hstep2] at hmem ⊢
              rcases List.mem_append.mp hmem with h1 | h2
              · have hjs : j = s := by
                  have := putEntryStepItem os env objectPre basePath s e store _ h1
                  simpa [putActionItem] using this
                subst hjs
                refine List.mem_append_left _ ?_
                simp [putEntryStep, he, hd, ho, hk, hp]
              · exact List.mem_append_right _
                  (ih (s + 1) (putEntryStep os env objectPre basePath s e store).2.1 j p2 h2 hok)

/-! ## Claim C9 -/

/-- Counterexample to claim C9 as stated: in a successful two-item
download run, the `defer`red closes are function-scoped, so the first
item's file handle is closed only after the second item has been
processed — its close event sits after the second item's get in the
trace — contradicting release "before the next item begins". -/
theorem c9_counterexample :
    GetAction.closeFile 0
        ∈ (GetObjectsWithCseKms unixOS envOK "/out" "p/" (.ok ["p/a", "p/b"])).1
      ∧ GetAction.getObj 1 "p/b"
          ∈ (GetObjectsWithCseKms unixOS envOK "/out" "p/" (.ok ["p/a", "p/b"])).1
      ∧ (GetObjectsWithCseKms unixOS envOK "/out" "p/" (.ok ["p/a", "p/b"])).1.indexOf
            (GetAction.closeFile 0)
          > (GetObjectsWithCseKms unixOS envOK "/out" "p/" (.ok ["p/a", "p/b"])).1.indexOf
            (GetAction.getObj 1 "p/b") := by
  decide

/-- Claim C9 as amended: no handle is shared across items — each item
acquires its own file handle and stream — and every handle a run
acquires is released by the end of the run on every exit path, success
or error; but the release discipline differs by direction.  On upload
the `defer` sits inside the walk callback, so a successful run's trace
is exactly one open/put/close block per entry (release before the next
entry begins), and on any run — failing entries included — every
successful `os.Open` (an open in the trace with a success outcome) has
its matching close in the trace.  On download the `defer`s are
function-scoped: on any run, every body stream acquired by a
successful get and every file handle acquired by a successful create
has its close among the function-exit closes, yet — as the
counterexample shows — only when the whole run returns, not before the
next item begins. -/
theorem c9_per_item_handles :
    (∀ (os : OsConv) (env : PutEnv) (objectPre basePath : String)
        (entries : List WalkEntry) (store : String → Option String),
      (∀ j e, entries.get? j = some e →
        putEntryErr os env objectPre basePath j e = none) →
      (putLoop os env objectPre basePath 0 entries store).1
        = putBlocks os objectPre basePath 0 entries)
    ∧ (∀ (os : OsConv) (env : PutEnv) (objectPre basePath : String)
        (entries : List WalkEntry) (store : String → Option String) (j : Nat) (p2 : String),
      PutAction.openFile j p2 ∈ (putLoop os env objectPre basePath 0 entries store).1 →
      env.openRes j = none →
      PutAction.closeFile j ∈ (putLoop os env objectPre basePath 0 entries store).1)
    ∧ (∀ (os : OsConv) (env : GetEnv) (path objectPre : String) (keys : List String)
        (j : Nat) (k2 : String),
      GetAction.getObj j k2 ∈ (getLoop os env path objectPre keys 0 keys).1 →
      env.getRes j = none →
      GetAction.closeBody j ∈ (getLoop os env path objectPre keys 0 keys).2.1)
    ∧ (∀ (os : OsConv) (env : GetEnv) (path objectPre : String) (keys : List String)
        (j : Nat) (p2 : String),
      GetAction.createFile j p2 ∈ (getLoop os env path objectPre keys 0 keys).1 →
      env.createRes j = none →
      GetAction.closeFile j ∈ (getLoop os env path objectPre keys 0 keys).2.1) := by
  refine ⟨?_, ?_, ?_, ?_⟩
  · intro os env objectPre basePath entries store hok
    exact (putLoopBlocksAux os env objectPre basePath entries 0 store
      (fun j e hj => by
        have := hok j e hj
        rwa [Nat.zero_add])).1
  · intro os env objectPre basePath entries store j p2 hmem hok
    exact putLoopReleaseAux os env objectPre basePath entries 0 store j p2 hmem hok
  · intro os env path objectPre keys j k2 hmem hok
    exact (getLoopReleaseAux os env path objectPre keys keys 0).1 j k2 hmem hok
  · intro os env path objectPre keys j p2 hmem hok
    exact (getLoopReleaseAux os env path objectPre keys keys 0).2 j p2 hmem hok

/-- Witness for the amended C9: a successful two-file upload run's trace
is exactly the two per-entry blocks; on an upload run whose second
entry fails at the encrypted put, that entry's opened file is still
closed; and on a download run that fails while writing its first item,
both the body stream and the created file of that item are among the
function-exit closes. -/
theorem c9_per_item_handles_witness :
    (putLoop unixOS (putEnvOK fun _ => "c") "arch/" "/d" 0
        [⟨"/d/a", false, none⟩, ⟨"/d/b", false, none⟩] fun _ => none).1
        = putBlocks unixOS "arch/" "/d" 0 [⟨"/d/a", false, none⟩, ⟨"/d/b", false, none⟩]
      ∧ PutAction.closeFile 1
          ∈ (putLoop unixOS putEnvFailSnd "arch/" "/d" 0
              [⟨"/d/a", false, none⟩, ⟨"/d/b", false, none⟩] fun _ => none).1
      ∧ GetAction.closeBody 0
          ∈ (getLoop unixOS envFailWrite "/out" "p/" ["p/a"] 0 ["p/a"]).2.1
      ∧ GetAction.closeFile 0
          ∈ (getLoop unixOS envFailWrite "/out" "p/" ["p/a"] 0 ["p/a"]).2.1 := by
  refine ⟨?_, ?_, ?_, ?_⟩
  · exact c9_per_item_handles.1 unixOS (putEnvOK fun _ => "c") "arch/" "/d"
      [⟨"/d/a", false, none⟩, ⟨"/d/b", false, none⟩] (fun _ => none)
      (fun j e hj => by
        match j with
        | 0 =>
          have hj2 : some (⟨"/d/a", false, none⟩ : WalkEntry) = some e := hj
          injection hj2 with he
          subst he
          decide
        | 1 =>
          have hj2 : some (⟨"/d/b", false, none⟩ : WalkEntry) = some e := hj
          injection hj2 with he
          subst he
          decide
        | n + 2 =>
          have hj2 : ([] : List WalkEntry).get? n = some e := hj
          simp at hj2)
  · exact c9_per_item_handles.2.1 unixOS putEnvFailSnd "arch/" "/d"
      [⟨"/d/a", false, none⟩, ⟨"/d/b", false, none⟩] (fun _ => none) 1 "/d/b"
      (by decide) rfl
  · exact c9_per_item_handles.2.2.1 unixOS envFailWrite "/out" "p/" ["p/a"] 0 "p/a"
      (by decide) rfl
  · exact c9_per_item_handles.2.2.2 unixOS envFailWrite "/out" "p/" ["p/a"] 0 "/out/a"
      (by decide) rfl
